import Mathlib

/-!
Verification development for the census cleaning pipeline in
src/deepseek_python_20250922_150886.py.

The script is a linear pandas pipeline: load csv files and concatenate,
clean the Income column (strip dollar signs and commas, cast to float),
split the GenderPop column into Male and Female nullable integers,
strip percent signs from the six demographic columns, drop exact
duplicate rows, derive Female_Proportion = Female / TotalPop, and
impute missing demographic percentages with the complement of the row
sum.  Numeric cells are embedded as rationals, missing values (NaN or
pandas NA) as Option.none, and operations that can raise a Python
exception return Except.
-/

namespace CensusClean

/-! ## String-level parsing primitives -/

/-- Model of a single-character split, as performed by
Series.str.split of the underscore delimiter (line 61 of the source):
every occurrence of the delimiter starts a new group, and the groups
do not contain the delimiter. -/
def splitOnC (d : Char) : List Char → List (List Char)
  | [] => [[]]
  | c :: rest =>
      if c = d then [] :: splitOnC d rest
      else
        match splitOnC d rest with
        | [] => [[c]]
        | g :: gs => (c :: g) :: gs

/-- Model of integer parsing as done by astype of a digit string: the
usual left fold accumulating decimal digits.  Non-digit or empty input
is rejected (astype raises in that case). -/
def parseNatDigits? (l : List Char) : Option Nat :=
  if l ≠ [] ∧ l.all Char.isDigit then
    some (l.foldl (fun n c => 10 * n + (c.toNat - 48)) 0)
  else none

/-- Model of float parsing as done by astype float: an optional
fractional part after a decimal point; both parts must be digit
strings.  The Income and percentage data exercised by the claims is
integer or decimal valued, which this covers exactly. -/
def parseFloat? (l : List Char) : Option ℚ :=
  match splitOnC '.' l with
  | [ip] =>
      match parseNatDigits? ip with
      | some n => some ((n : ℚ))
      | none => none
  | [ip, fp] =>
      match parseNatDigits? ip, parseNatDigits? fp with
      | some n, some f => some ((n : ℚ) + (f : ℚ) / (10 : ℚ) ^ fp.length)
      | _, _ => none
  | _ => none

/-- Mathematical decimal value of a big-endian digit string, used as
the specification-side meaning of numeric literals. -/
def decimalValue (l : List Char) : Nat :=
  Nat.ofDigits 10 ((l.map (fun c => c.toNat - 48)).reverse)

/-- Model of line 52 of the source: the regex replace that deletes
every dollar sign and comma from an Income cell. -/
def stripDollarComma (l : List Char) : List Char :=
  l.filter (fun c => ¬ (c = '$' ∨ c = ','))

/-- Model of the Income cleaning (line 52): strip formatting
characters and cast to float; a non-numeric residue raises. -/
def cleanIncomeField (l : List Char) : Except String ℚ :=
  match parseFloat? (stripDollarComma l) with
  | some q => .ok q
  | none => .error "could not convert string to float"

/-- Model of one part of the GenderPop split (line 64): drop the
trailing one-character marker, map the empty residue to NA, and cast
the rest to a nullable integer. -/
def parseGenderPart (p : List Char) : Except String (Option Int) :=
  let t := p.dropLast
  if t = [] then .ok none
  else
    match parseNatDigits? t with
    | some n => .ok (some (n : Int))
    | none => .error "cannot convert to Int64"

/-- Model of lines 61-64 of the source: split a GenderPop cell on the
underscore, parse each part; a one-part cell leaves Female missing,
and more than two parts makes the two-column assignment raise. -/
def parseGenderField (l : List Char) : Except String (Option Int × Option Int) :=
  match splitOnC '_' l with
  | [a, b] => do
      let m ← parseGenderPart a
      let f ← parseGenderPart b
      .ok (m, f)
  | [a] => do
      let m ← parseGenderPart a
      .ok (m, none)
  | _ => .error "Columns must be same length as key"

/-- Model of the percentage cleaning (line 79): an empty cell is NaN
and stays missing; otherwise every percent sign is deleted and the
residue cast to float. -/
def parsePercentField (l : List Char) : Except String (Option ℚ) :=
  if l = [] then .ok none
  else
    match parseFloat? (l.filter (fun c => ¬ c = '%')) with
    | some q => .ok (some q)
    | none => .error "could not convert string to float"

/-! ## The data model -/

/-- One row of the cleaned table, the StateRecord entity of the spec.
Missing numeric cells are none. -/
structure Row where
  state : String
  totalPop : Int
  hispanic : Option ℚ
  white : Option ℚ
  black : Option ℚ
  native : Option ℚ
  asian : Option ℚ
  pacific : Option ℚ
  income : ℚ
  male : Option Int
  female : Option Int
  femaleProportion : Option ℚ
deriving DecidableEq

/-- The six demographic percentage cells of a row, in the column order
of demographic_cols (line 76). -/
def demoList (r : Row) : List (Option ℚ) :=
  [r.hispanic, r.white, r.black, r.native, r.asian, r.pacific]

/-- Model of row.sum() with NaN skipping: the sum of the non-missing
demographic entries of a row. -/
def rowPresentSum (r : Row) : ℚ :=
  ((demoList r).filterMap id).sum

/-- Model of row.fillna(v): every missing demographic cell of the row
receives the scalar v, non-missing cells are untouched. -/
def fillRow (r : Row) (v : ℚ) : Row :=
  { r with
    hispanic := some (r.hispanic.getD v)
    white := some (r.white.getD v)
    black := some (r.black.getD v)
    native := some (r.native.getD v)
    asian := some (r.asian.getD v)
    pacific := some (r.pacific.getD v) }

/-- Model of the imputation lambda (lines 145-148): if any demographic
cell of the row is missing, fill every missing one with
100 - row.sum(); otherwise return the row unchanged. -/
def imputeRow (r : Row) : Row :=
  if (demoList r).any (fun x => x.isNone) then fillRow r (100 - rowPresentSum r)
  else r

/-- Model of the apply over axis 1: the imputation is applied to every
row of the table. -/
def imputer (df : List Row) : List Row :=
  df.map imputeRow

/-! ## Deduplication (lines 87-95) -/

/-- Worker for drop_duplicates on an indexed table: a scan that keeps
a pair exactly when its row value has not been seen before, carrying
the set of already seen row values. -/
def dropDupSeen (seen : List Row) : List (Nat × Row) → List (Nat × Row)
  | [] => []
  | p :: ps =>
      if p.2 ∈ seen then dropDupSeen seen ps
      else p :: dropDupSeen (p.2 :: seen) ps

/-- Model of df.drop_duplicates() (line 93): exact whole-row equality,
first occurrence kept, original index labels carried along. -/
def drop_duplicates (df : List (Nat × Row)) : List (Nat × Row) :=
  dropDupSeen [] df

/-- Model of reset_index(drop=True) (line 93): discard the carried
index labels and relabel the rows 0,1,2,... in order. -/
def reset_index (df : List (Nat × Row)) : List (Nat × Row) :=
  (df.map Prod.snd).enum

/-- The deduplication stage as it acts on the table of rows: enumerate
with the dense index produced by the earlier ignore_index concat, drop
duplicates, reset the index, and view the rows. -/
def dedupStage (df : List Row) : List Row :=
  (reset_index (drop_duplicates df.enum)).map Prod.snd

/-- Specification-side reading of the Deduplicator, following the
words of the spec: walk the table keeping the list of earlier rows,
and emit a row exactly when it is not an exact duplicate of an
earlier row. -/
def specKeepGo (earlier : List Row) : List Row → List Row
  | [] => []
  | x :: t =>
      if x ∈ earlier then specKeepGo (earlier ++ [x]) t
      else x :: specKeepGo (earlier ++ [x]) t

/-- Specification-side Deduplicator: keep exactly the rows that are
not exact duplicates of an earlier row, in their original order. -/
def specKeepFirst (df : List Row) : List Row :=
  specKeepGo [] df

/-- Model of df.duplicated().sum() (line 88): the number of rows that
have an exact duplicate earlier in the table. -/
def dupCountSeen (seen : List Row) : List Row → Nat
  | [] => 0
  | x :: t =>
      if x ∈ seen then 1 + dupCountSeen seen t
      else dupCountSeen (x :: seen) t

/-- The duplicate count of the table. -/
def duplicated_sum (df : List Row) : Nat :=
  dupCountSeen [] df

/-! ## Feature derivation (lines 103-104) -/

/-- Model of the vectorized division Female / TotalPop: a missing
numerator stays missing, and a zero denominator produces a non-finite
float (NaN or infinity), which the embedding records as an undefined
(none) cell; no exception is raised in either case. -/
def safeDiv (x : Option Int) (d : Int) : Option ℚ :=
  match x with
  | none => none
  | some n => if d = 0 then none else some ((n : ℚ) / (d : ℚ))

/-- Model of line 103: attach the Female_Proportion cell to a row. -/
def deriveRow (r : Row) : Row :=
  { r with femaleProportion := safeDiv r.female r.totalPop }

/-- The Feature Deriver stage over the table.  It is given the Except
type of the fallible pipeline stages; the division itself never
raises, so the stage always returns ok. -/
def deriveStage (df : List Row) : Except String (List Row) :=
  .ok (df.map deriveRow)

/-! ## Top-5-by-income query (line 196) -/

/-- The ranking used by df.nlargest(5, Income) with keep=first: a row
ranks before another when its Income is strictly larger, or the
incomes tie and it appears earlier in the table. -/
def rankLe (p q : Nat × Row) : Prop :=
  q.2.income < p.2.income ∨ (p.2.income = q.2.income ∧ p.1 ≤ q.1)

instance (p q : Nat × Row) : Decidable (rankLe p q) := by
  unfold rankLe; exact inferInstance

instance : IsTotal (Nat × Row) rankLe := by
  constructor
  intro p q
  rcases lt_trichotomy p.2.income q.2.income with h | h | h
  · exact Or.inr (Or.inl h)
  · rcases Nat.le_total p.1 q.1 with hle | hle
    · exact Or.inl (Or.inr ⟨h, hle⟩)
    · exact Or.inr (Or.inr ⟨h.symm, hle⟩)
  · exact Or.inl (Or.inl h)

instance : IsTrans (Nat × Row) rankLe := by
  constructor
  intro a b c hab hbc
  rcases hab with hab | ⟨hab, hab2⟩
  · rcases hbc with hbc | ⟨hbc, _⟩
    · exact Or.inl (lt_trans hbc hab)
    · exact Or.inl (hbc ▸ hab)
  · rcases hbc with hbc | ⟨hbc, hbc2⟩
    · exact Or.inl (hab ▸ hbc)
    · exact Or.inr ⟨hab.trans hbc, le_trans hab2 hbc2⟩

/-- The five highest ranked indexed rows: the table is enumerated,
sorted by descending Income with ties by original position, and the
first five are taken. -/
def top5pairs (df : List Row) : List (Nat × Row) :=
  (List.insertionSort rankLe df.enum).take 5

/-- Model of df.nlargest(5, Income) (line 196): the row values of the
five highest ranked indexed rows, in rank order. -/
def nlargest_income (df : List Row) : List Row :=
  (top5pairs df).map Prod.snd

/-! ## The raw front end (lines 32-79) -/

/-- A raw csv row: an association of column names to cell text; an
empty cell is the NaN produced by read_csv for an empty field. -/
def RawRow := List (String × String)

/-- Column access on a raw row, raising a KeyError when the column is
absent. -/
def getCell (r : RawRow) (c : String) : Except String String :=
  match r.lookup c with
  | some v => .ok v
  | none => .error ("KeyError: " ++ c)

/-- Model of pd.concat over the loaded files (lines 36-43): an empty
file list raises, otherwise the tables are concatenated in order with
a fresh dense index (ignore_index). -/
def concatFiles (files : List (List RawRow)) : Except String (List RawRow) :=
  if files.isEmpty then .error "No objects to concatenate"
  else .ok files.flatten

/-- Error-propagating map over a list: the vectorized pandas column
operations applied cell by cell, raising the first failure. -/
def exMap (f : α → Except String β) : List α → Except String (List β)
  | [] => .ok []
  | x :: xs =>
    match f x with
    | .error e => .error e
    | .ok y =>
      match exMap f xs with
      | .error e => .error e
      | .ok ys => .ok (y :: ys)

/-- Model of integer parsing for the TotalPop column, which read_csv
delivers as an integer. -/
def parseTotalPop (l : List Char) : Except String Int :=
  match parseNatDigits? l with
  | some n => .ok (n : Int)
  | none => .error "invalid literal for int"

/-- The Field Normalizer over one raw row, in the column order that
the script cleans them: Income (line 52), GenderPop (lines 61-64),
then the six demographic percentage columns (line 79); the untouched
State and TotalPop columns are read as is.  Female_Proportion does not
exist yet and starts missing. -/
def parseRow (r : RawRow) : Except String Row := do
  let incomeS ← getCell r "Income"
  let income ← cleanIncomeField incomeS.toList
  let gpS ← getCell r "GenderPop"
  let mf ← parseGenderField gpS.toList
  let stS ← getCell r "State"
  let tpS ← getCell r "TotalPop"
  let tp ← parseTotalPop tpS.toList
  let hS ← getCell r "Hispanic"
  let h ← parsePercentField hS.toList
  let wS ← getCell r "White"
  let w ← parsePercentField wS.toList
  let bS ← getCell r "Black"
  let b ← parsePercentField bS.toList
  let nS ← getCell r "Native"
  let n ← parsePercentField nS.toList
  let aS ← getCell r "Asian"
  let a ← parsePercentField aS.toList
  let pS ← getCell r "Pacific"
  let p ← parsePercentField pS.toList
  .ok { state := stS, totalPop := tp, hispanic := h, white := w, black := b,
        native := n, asian := a, pacific := p, income := income,
        male := mf.1, female := mf.2, femaleProportion := none }

/-- The whole pipeline on the loaded raw files, in the order of the
script: concatenate, normalize the fields, drop duplicates, derive
Female_Proportion, impute the demographics.  The result is the table
that the Reporter and Exporter consume; any failure terminates the run
with that error. -/
def runPipeline (files : List (List RawRow)) : Except String (List Row) := do
  let raw ← concatFiles files
  let cleaned ← exMap parseRow raw
  let deduped := dedupStage cleaned
  let derived ← deriveStage deduped
  .ok (imputer derived)

/-! ## Sample rows used by witnesses and counterexamples -/

/-- A row with one missing demographic cell (Black) whose present
cells sum to 95. -/
def rowMissing : Row :=
  ⟨"AK", 1000, some 40, some 30, none, some 10, some 10, some 5, 100, some 1, some 1, none⟩

/-- The result of imputing rowMissing: Black receives 100 - 95 = 5. -/
def rowMissingImputed : Row :=
  ⟨"AK", 1000, some 40, some 30, some 5, some 10, some 10, some 5, 100, some 1, some 1, none⟩

/-- A row with no missing demographic cell, summing to 100. -/
def rowComplete : Row :=
  ⟨"AL", 1000, some 10, some 20, some 30, some 20, some 10, some 10, 100, some 1, some 1, none⟩

/-- A row with no missing demographic cell whose cells sum to 60, not
100. -/
def rowUnbalanced : Row :=
  ⟨"AZ", 1000, some 10, some 10, some 10, some 10, some 10, some 10, 100, some 1, some 1, none⟩

/-! ## Helper lemmas about the imputation -/

/-- Filling every missing slot of a list of optional cells with the
scalar v adds v once per missing slot to the sum of the present
cells. -/
lemma filterMap_fill_sum (l : List (Option ℚ)) (v : ℚ) :
    ((l.map (fun x => some (x.getD v))).filterMap id).sum
      = (l.filterMap id).sum + (l.countP (fun x => x.isNone) : ℚ) * v := by
  induction l with
  | nil => simp
  | cons x t ih =>
    cases x with
    | none =>
      have h1 : (((none :: t).map (fun x => some (x.getD v))).filterMap id).sum
          = v + ((t.map (fun x => some (x.getD v))).filterMap id).sum := by simp
      have h2 : ((none :: t).filterMap id).sum = (t.filterMap id).sum := by simp
      have h3 : ((none :: t).countP (fun x => x.isNone))
          = t.countP (fun x => x.isNone) + 1 := by simp [List.countP_cons]
      rw [h1, h2, h3, ih]; push_cast; ring
    | some a =>
      have h1 : (((some a :: t).map (fun x => some (x.getD v))).filterMap id).sum
          = a + ((t.map (fun x => some (x.getD v))).filterMap id).sum := by simp
      have h2 : ((some a :: t).filterMap id).sum = a + (t.filterMap id).sum := by simp
      have h3 : ((some a :: t).countP (fun x => x.isNone))
          = t.countP (fun x => x.isNone) := by simp [List.countP_cons]
      rw [h1, h2, h3, ih]; ring

/-- The demographic cells of a filled row are the filled demographic
cells of the row. -/
lemma demoList_fillRow (r : Row) (v : ℚ) :
    demoList (fillRow r v) = (demoList r).map (fun x => some (x.getD v)) := rfl

/-! ## Claim theorems: the Imputer -/

/-- Claim C1: for every row of the table, if any of the six
demographic percentage cells is missing, every missing cell of that
row is replaced by the single scalar 100 minus the sum of the
non-missing demographic cells of that row (the map applies the one
scalar 100 - rowPresentSum r to every missing slot), and rows with no
missing demographic cell pass through unchanged. -/
theorem imputer_complement_formula (r : Row) :
    ((demoList r).any (fun x => x.isNone) →
      demoList (imputeRow r)
        = (demoList r).map (fun x => some (x.getD (100 - rowPresentSum r))))
    ∧ (¬ (demoList r).any (fun x => x.isNone) → imputeRow r = r) := by
  constructor
  · intro h
    unfold imputeRow
    rw [if_pos h, demoList_fillRow]
  · intro h
    unfold imputeRow
    rw [if_neg h]

/-- Witness for C1 at two concrete rows: one with a missing Black
cell, one complete. -/
theorem imputer_complement_formula_witness :
    (((demoList rowMissing).any (fun x => x.isNone))
      ∧ demoList (imputeRow rowMissing)
          = (demoList rowMissing).map
              (fun x => some (x.getD (100 - rowPresentSum rowMissing))))
    ∧ ((¬ (demoList rowComplete).any (fun x => x.isNone))
      ∧ imputeRow rowComplete = rowComplete) :=
  ⟨⟨by decide, (imputer_complement_formula rowMissing).1 (by decide)⟩,
   ⟨by decide, (imputer_complement_formula rowComplete).2 (by decide)⟩⟩

/-- Counterexample to claim C2 as stated: rowUnbalanced has zero
missing demographic cells, hence at most one, yet after imputation its
demographic cells sum to 60, not (approximately) 100. -/
theorem imputed_row_sum_counterexample :
    (demoList rowUnbalanced).countP (fun x => x.isNone) = 0
    ∧ ((demoList (imputeRow rowUnbalanced)).filterMap id).sum = 60
    ∧ ((demoList (imputeRow rowUnbalanced)).filterMap id).sum ≠ 100 := by
  refine ⟨by decide, ?_, ?_⟩ <;>
    norm_num [imputeRow, demoList, rowUnbalanced, rowPresentSum, fillRow,
      List.filterMap_cons, List.filterMap_nil]

/-- Claim C2 (amended): for every row with exactly one missing
demographic cell, after imputation the six demographic cells sum to
exactly 100. -/
theorem imputed_row_sum_one_missing (r : Row)
    (h : (demoList r).countP (fun x => x.isNone) = 1) :
    ((demoList (imputeRow r)).filterMap id).sum = 100 := by
  have hpos : 0 < (demoList r).countP (fun x => x.isNone) := by omega
  obtain ⟨x, hx, hpx⟩ := List.countP_pos_iff.mp hpos
  have hany : (demoList r).any (fun x => x.isNone) = true :=
    List.any_eq_true.mpr ⟨x, hx, hpx⟩
  unfold imputeRow
  rw [if_pos hany, demoList_fillRow, filterMap_fill_sum, h]
  unfold rowPresentSum
  push_cast
  ring

/-- Witness for amended C2 at the concrete row with Black missing. -/
theorem imputed_row_sum_one_missing_witness :
    (demoList rowMissing).countP (fun x => x.isNone) = 1
    ∧ ((demoList (imputeRow rowMissing)).filterMap id).sum = 100 :=
  ⟨by decide, imputed_row_sum_one_missing rowMissing (by decide)⟩

/-- Claim C5: on a table in which no demographic cell of any row is
missing, the Imputer returns the table unchanged. -/
theorem imputer_id_on_complete (df : List Row)
    (h : ∀ r ∈ df, (demoList r).all (fun x => x.isSome)) :
    imputer df = df := by
  induction df with
  | nil => rfl
  | cons x t ih =>
    have hx := h x (by simp)
    have hxr : imputeRow x = x := by
      unfold imputeRow
      rw [if_neg]
      rw [List.any_eq_true]
      rintro ⟨y, hy, hpy⟩
      have := List.all_eq_true.mp hx y hy
      simp only [Option.isNone_iff_eq_none] at hpy
      simp [hpy] at this
    have ht : imputer t = t := ih (fun r hr => h r (by simp [hr]))
    unfold imputer at ht ⊢
    rw [List.map_cons, hxr, ht]

/-- Witness for C5 at a one-row table with no missing cells. -/
theorem imputer_id_on_complete_witness :
    (∀ r ∈ [rowComplete], (demoList r).all (fun x => x.isSome))
    ∧ imputer [rowComplete] = [rowComplete] :=
  ⟨by decide, imputer_id_on_complete [rowComplete] (by decide)⟩

/-- The frame conditions of the imputation on one row: every column
other than the six demographic ones is unchanged, and a demographic
cell that was present is unchanged. -/
def framePreserved (r o : Row) : Prop :=
  o.state = r.state ∧ o.totalPop = r.totalPop ∧ o.income = r.income
    ∧ o.male = r.male ∧ o.female = r.female
    ∧ o.femaleProportion = r.femaleProportion
    ∧ (r.hispanic.isSome → o.hispanic = r.hispanic)
    ∧ (r.white.isSome → o.white = r.white)
    ∧ (r.black.isSome → o.black = r.black)
    ∧ (r.native.isSome → o.native = r.native)
    ∧ (r.asian.isSome → o.asian = r.asian)
    ∧ (r.pacific.isSome → o.pacific = r.pacific)

/-- Claim C10: the Imputer keeps the number of rows and the row order,
and on each row it changes nothing outside the six demographic
columns and never changes a demographic cell that was already
present. -/
theorem imputer_frame (df : List Row) (i : Nat) (r o : Row)
    (hr : df[i]? = some r) (ho : (imputer df)[i]? = some o) :
    (imputer df).length = df.length ∧ framePreserved r o := by
  have hlen : (imputer df).length = df.length := List.length_map df imputeRow
  have ho2 : o = imputeRow r := by
    unfold imputer at ho
    rw [List.getElem?_map, hr] at ho
    simpa using ho.symm
  subst ho2
  refine ⟨hlen, ?_⟩
  unfold framePreserved imputeRow
  by_cases hc : (demoList r).any (fun x => x.isNone)
  · rw [if_pos hc]
    refine ⟨rfl, rfl, rfl, rfl, rfl, rfl, ?_, ?_, ?_, ?_, ?_, ?_⟩ <;>
      · intro hs
        unfold fillRow
        simp only
        rw [Option.getD_of_ne_none (Option.ne_none_iff_isSome.mpr hs)]
  · rw [if_neg hc]
    exact ⟨rfl, rfl, rfl, rfl, rfl, rfl,
      fun _ => rfl, fun _ => rfl, fun _ => rfl, fun _ => rfl, fun _ => rfl, fun _ => rfl⟩

/-- Witness for C10 at a one-row table whose row has a missing Black
cell. -/
theorem imputer_frame_witness :
    ([rowMissing][0]? = some rowMissing)
    ∧ ((imputer [rowMissing])[0]? = some rowMissingImputed)
    ∧ ((imputer [rowMissing]).length = [rowMissing].length
        ∧ framePreserved rowMissing rowMissingImputed) := by
  have h2 : (imputer [rowMissing])[0]? = some rowMissingImputed := by
    norm_num [imputer, imputeRow, demoList, rowMissing, rowMissingImputed,
      rowPresentSum, fillRow, List.filterMap_cons, List.filterMap_nil]
  exact ⟨by decide, h2,
    imputer_frame [rowMissing] 0 rowMissing rowMissingImputed (by decide) h2⟩

/-! ## Claim theorems: the Deduplicator -/

/-- The first-seen scan agrees with the specification walk whenever
the two accumulators hold the same set of already seen rows. -/
lemma dropDupSeen_spec (xs : List (Nat × Row)) :
    ∀ (seen pre : List Row), (∀ y, y ∈ seen ↔ y ∈ pre) →
      (dropDupSeen seen xs).map Prod.snd = specKeepGo pre (xs.map Prod.snd) := by
  induction xs with
  | nil => intro seen pre _; rfl
  | cons p ps ih =>
    intro seen pre h
    have hinv : ∀ y : Row, y ∈ seen ∨ y = p.2 ↔ y ∈ pre ++ [p.2] := by
      intro y
      simp only [List.mem_append, List.mem_singleton]
      exact or_congr_left (h y)
    by_cases hp : p.2 ∈ seen
    · have hp2 : p.2 ∈ pre := (h p.2).mp hp
      simp only [dropDupSeen, if_pos hp, List.map_cons, specKeepGo, if_pos hp2]
      exact ih seen (pre ++ [p.2])
        (fun y => ⟨fun hy => ((hinv y).mp (Or.inl hy)),
          fun hy => ((hinv y).mpr hy).elim id (fun e => e ▸ hp)⟩)
    · have hp2 : p.2 ∉ pre := fun hc => hp ((h p.2).mpr hc)
      simp only [dropDupSeen, if_neg hp, List.map_cons, specKeepGo, if_neg hp2]
      congr 1
      exact ih (p.2 :: seen) (pre ++ [p.2])
        (fun y => by
          rw [← hinv y]
          simp only [List.mem_cons]
          exact ⟨fun hy => hy.elim (fun e => Or.inr e) Or.inl,
            fun hy => hy.elim Or.inr (fun e => Or.inl e)⟩)

/-- Each row value survives the first-seen scan exactly once if it
occurs at all and was not seen before. -/
lemma dropDupSeen_count (xs : List (Nat × Row)) :
    ∀ (seen : List Row) (v : Row),
      ((dropDupSeen seen xs).map Prod.snd).count v
        = if v ∈ xs.map Prod.snd ∧ v ∉ seen then 1 else 0 := by
  induction xs with
  | nil => intro seen v; simp [dropDupSeen]
  | cons p ps ih =>
    intro seen v
    by_cases hp : p.2 ∈ seen
    · rw [dropDupSeen, if_pos hp, ih seen v]
      by_cases hv : v = p.2
      · subst hv
        simp [hp]
      · simp only [List.map_cons, List.mem_cons]
        have : (v = p.2 ∨ v ∈ ps.map Prod.snd) ∧ v ∉ seen
            ↔ v ∈ ps.map Prod.snd ∧ v ∉ seen := by
          constructor
          · rintro ⟨h1 | h1, h2⟩
            · exact absurd h1 hv
            · exact ⟨h1, h2⟩
          · rintro ⟨h1, h2⟩; exact ⟨Or.inr h1, h2⟩
        rw [if_congr this rfl rfl]
    · rw [dropDupSeen, if_neg hp]
      simp only [List.map_cons, List.count_cons, ih (p.2 :: seen) v]
      by_cases hv : v = p.2
      · subst hv
        simp [hp]
      · have h1 : (p.2 == v) = false := by
          simp [Ne.symm hv]
        rw [h1]
        simp only [List.mem_cons, if_false, Nat.add_zero]
        have : v ∈ ps.map Prod.snd ∧ ¬(v = p.2 ∨ v ∈ seen)
            ↔ (v = p.2 ∨ v ∈ ps.map Prod.snd) ∧ v ∉ seen := by
          constructor
          · rintro ⟨h2, h3⟩
            exact ⟨Or.inr h2, fun hc => h3 (Or.inr hc)⟩
          · rintro ⟨h2 | h2, h3⟩
            · exact absurd h2 hv
            · exact ⟨h2, fun hc => hc.elim hv h3⟩
        rw [if_congr this rfl rfl]
        simp

/-- The rows kept by the first-seen scan and the duplicates it counts
partition the table. -/
lemma dropDupSeen_length (xs : List (Nat × Row)) :
    ∀ seen : List Row,
      (dropDupSeen seen xs).length + dupCountSeen seen (xs.map Prod.snd) = xs.length := by
  induction xs with
  | nil => intro seen; rfl
  | cons p ps ih =>
    intro seen
    by_cases hp : p.2 ∈ seen
    · rw [dropDupSeen, if_pos hp, List.map_cons, dupCountSeen, if_pos hp]
      have := ih seen
      simp only [List.length_cons]
      omega
    · rw [dropDupSeen, if_neg hp, List.map_cons, dupCountSeen, if_neg hp]
      have := ih (p.2 :: seen)
      simp only [List.length_cons]
      omega

/-- Claim C3: the Deduplicator keeps exactly the rows that are not
exact duplicates of an earlier row, in their original relative order
(it equals the specification walk specKeepFirst); reset_index then
assigns the dense zero-based index 0,1,...; the resulting row count is
the original count minus the duplicate count of line 88; and every row
value that occurs in the table survives exactly once, so of two
identical rows exactly one remains. -/
theorem dedup_exact_duplicates (df : List Row) :
    dedupStage df = specKeepFirst df
    ∧ (reset_index (drop_duplicates df.enum)).map Prod.fst
        = List.range (drop_duplicates df.enum).length
    ∧ dedupStage df = (drop_duplicates df.enum).map Prod.snd
    ∧ (dedupStage df).length = df.length - duplicated_sum df
    ∧ ∀ v : Row, (dedupStage df).count v = min (df.count v) 1 := by
  have hsnd : (drop_duplicates df.enum).map Prod.snd = specKeepFirst df := by
    unfold drop_duplicates specKeepFirst
    rw [dropDupSeen_spec df.enum [] [] (fun y => Iff.rfl), List.enum_map_snd]
  have hstage : dedupStage df = (drop_duplicates df.enum).map Prod.snd := by
    unfold dedupStage reset_index
    rw [List.enum_map_snd]
  refine ⟨hstage.trans hsnd, ?_, hstage, ?_, ?_⟩
  · unfold reset_index
    rw [List.enum_map_fst, List.length_map]
  · rw [hstage, List.length_map]
    have := dropDupSeen_length df.enum []
    rw [List.enum_map_snd] at this
    unfold drop_duplicates duplicated_sum
    have hlen : df.enum.length = df.length := List.enum_length
    omega
  · intro v
    rw [hstage]
    unfold drop_duplicates
    rw [dropDupSeen_count df.enum [] v, List.enum_map_snd]
    by_cases hv : v ∈ df
    · rw [if_pos ⟨hv, by simp⟩]
      have hpos : 0 < df.count v := List.count_pos_iff.mpr hv
      omega
    · rw [if_neg (fun hc => hv hc.1)]
      have hzero : df.count v = 0 := List.count_eq_zero.mpr hv
      rw [hzero]
      simp

/-! ## Helper lemmas: splitting and digit parsing -/

/-- A list without the delimiter splits into the single group that is
the list itself. -/
lemma splitOnC_no_delim (d : Char) (l : List Char) (h : ∀ c ∈ l, ¬ c = d) :
    splitOnC d l = [l] := by
  induction l with
  | nil => rfl
  | cons c t ih =>
    have hc : ¬ c = d := h c (by simp)
    have ht := ih (fun x hx => h x (by simp [hx]))
    simp [splitOnC, hc, ht]

/-- Splitting at the first delimiter occurrence: the delimiter-free
prefix becomes the first group. -/
lemma splitOnC_append (d : Char) (a b : List Char) (h : ∀ c ∈ a, ¬ c = d) :
    splitOnC d (a ++ d :: b) = a :: splitOnC d b := by
  induction a with
  | nil => simp [splitOnC]
  | cons c t ih =>
    have hc : ¬ c = d := h c (by simp)
    have ht := ih (fun x hx => h x (by simp [hx]))
    simp [splitOnC, hc, ht]

/-- The digit fold of the parser computes the decimal value, shifted
by the accumulator. -/
lemma foldl_digits_eq (l : List Char) :
    ∀ a : Nat, l.foldl (fun n c => 10 * n + (c.toNat - 48)) a
      = a * 10 ^ l.length + decimalValue l := by
  induction l with
  | nil => intro a; simp [decimalValue, Nat.ofDigits]
  | cons c t ih =>
    intro a
    rw [List.foldl_cons, ih]
    unfold decimalValue
    rw [List.map_cons, List.reverse_cons, Nat.ofDigits_append]
    simp only [Nat.ofDigits_singleton, List.length_reverse, List.length_map,
      List.length_cons, List.map_cons]
    ring

/-- On a nonempty digit string the integer parser succeeds with the
decimal value. -/
lemma parseNatDigits_eq (l : List Char) (h1 : l ≠ []) (h2 : l.all Char.isDigit) :
    parseNatDigits? l = some (decimalValue l) := by
  unfold parseNatDigits?
  rw [if_pos ⟨h1, h2⟩, foldl_digits_eq]
  simp

/-- A digit is not any fixed non-digit character. -/
lemma isDigit_ne (c d : Char) (hd : d.isDigit = false) (h : c.isDigit = true) :
    ¬ c = d := by
  intro e
  rw [e, hd] at h
  exact Bool.noConfusion h

/-- On a nonempty digit string (so with no decimal point), the float
parser returns exactly the decimal value. -/
lemma parseFloat_digits (l : List Char) (h1 : l ≠ []) (h2 : l.all Char.isDigit) :
    parseFloat? l = some ((decimalValue l : ℚ)) := by
  have hnodot : ∀ c ∈ l, ¬ c = '.' := by
    intro c hc
    exact isDigit_ne c '.' (by decide) (List.all_eq_true.mp h2 c hc)
  unfold parseFloat?
  rw [splitOnC_no_delim _ _ hnodot]
  show (match parseNatDigits? l with
    | some n => some ((n : ℚ))
    | none => none) = some ((decimalValue l : ℚ))
  rw [parseNatDigits_eq l h1 h2]

/-! ## Claim theorems: the Field Normalizer -/

/-- Claim C4: a GenderPop field of the form digitsM_digitsF splits at
the underscore, each part loses its trailing marker, and parses to the
decimal values as nullable integers; an empty first part (the form
M_digitsF) yields a missing Male and the parsed Female. -/
theorem gender_split_correct (ds es : List Char)
    (hd : ds.all Char.isDigit) (he : es.all Char.isDigit) (hes : es ≠ []) :
    parseGenderField (ds ++ 'M' :: '_' :: (es ++ ['F']))
      = .ok ((if ds = [] then none else some ((decimalValue ds : Int))),
             some ((decimalValue es : Int))) := by
  have hda : ∀ c ∈ ds ++ ['M'], ¬ c = '_' := by
    intro c hc
    rcases List.mem_append.mp hc with h | h
    · exact isDigit_ne c '_' (by decide) (List.all_eq_true.mp hd c h)
    · rw [List.mem_singleton.mp h]; decide
  have hdb : ∀ c ∈ es ++ ['F'], ¬ c = '_' := by
    intro c hc
    rcases List.mem_append.mp hc with h | h
    · exact isDigit_ne c '_' (by decide) (List.all_eq_true.mp he c h)
    · rw [List.mem_singleton.mp h]; decide
  have hsplit : splitOnC '_' (ds ++ 'M' :: '_' :: (es ++ ['F']))
      = [ds ++ ['M'], es ++ ['F']] := by
    have hassoc : (ds ++ ['M']) ++ '_' :: (es ++ ['F'])
        = ds ++ 'M' :: '_' :: (es ++ ['F']) := by simp
    rw [← hassoc, splitOnC_append _ _ _ hda, splitOnC_no_delim _ _ hdb]
  unfold parseGenderField
  rw [hsplit]
  have hm : parseGenderPart (ds ++ ['M'])
      = .ok (if ds = [] then none else some ((decimalValue ds : Int))) := by
    unfold parseGenderPart
    simp only [List.dropLast_concat]
    by_cases hds : ds = []
    · rw [if_pos hds, if_pos hds]
    · rw [if_neg hds, if_neg hds, parseNatDigits_eq ds hds hd]
  have hf : parseGenderPart (es ++ ['F']) = .ok (some ((decimalValue es : Int))) := by
    unfold parseGenderPart
    simp only [List.dropLast_concat]
    rw [if_neg hes, parseNatDigits_eq es hes he]
  show ((parseGenderPart (ds ++ ['M'])).bind fun m =>
      (parseGenderPart (es ++ ['F'])).bind fun f => Except.ok (m, f)) = _
  rw [hm]
  show ((parseGenderPart (es ++ ['F'])).bind fun f =>
      Except.ok ((if ds = [] then none else some ((decimalValue ds : Int))), f)) = _
  rw [hf]
  rfl

/-- Witness for C4 at the two concrete fields of the claim. -/
theorem gender_split_correct_witness :
    parseGenderField ("1234M_5678F".toList) = .ok (some 1234, some 5678)
    ∧ parseGenderField ("M_5678F".toList) = .ok (none, some 5678) := by
  constructor
  · have h := gender_split_correct ("1234".toList) ("5678".toList)
      (by decide) (by decide) (by decide)
    have e : ("1234".toList ++ 'M' :: '_' :: ("5678".toList ++ ['F']))
        = "1234M_5678F".toList := by decide
    rw [← e, h, Except.ok.injEq]
    decide
  · have h := gender_split_correct ([] : List Char) ("5678".toList)
      (by decide) (by decide) (by decide)
    have e : (([] : List Char) ++ 'M' :: '_' :: ("5678".toList ++ ['F']))
        = "M_5678F".toList := by decide
    rw [← e, h, Except.ok.injEq]
    decide

/-- Claim C7: on a currency string made of digits, dollar signs and
comma separators, with at least one digit, the Income cleaning strips
the formatting characters and returns exactly the decimal value of the
digits. -/
theorem income_parse_correct (l : List Char)
    (hval : ∀ c ∈ l, c.isDigit ∨ c = '$' ∨ c = ',') (hd : l.any Char.isDigit) :
    cleanIncomeField l = .ok ((decimalValue (l.filter Char.isDigit) : ℚ)) := by
  have hstrip : stripDollarComma l = l.filter Char.isDigit := by
    unfold stripDollarComma
    apply List.filter_congr
    intro c hc
    rcases hval c hc with h | h | h
    · have h1 : ¬ c = '$' := isDigit_ne c '$' (by decide) h
      have h2 : ¬ c = ',' := isDigit_ne c ',' (by decide) h
      simp [h, h1, h2]
    · simp [h]
    · simp [h]
  have hne : l.filter Char.isDigit ≠ [] := by
    obtain ⟨c, hc, hcd⟩ := List.any_eq_true.mp hd
    intro hnil
    have : c ∈ l.filter Char.isDigit := List.mem_filter.mpr ⟨hc, hcd⟩
    rw [hnil] at this
    exact List.not_mem_nil c this
  have hall : (l.filter Char.isDigit).all Char.isDigit := by
    rw [List.all_eq_true]
    intro c hc
    exact (List.mem_filter.mp hc).2
  unfold cleanIncomeField
  rw [hstrip, parseFloat_digits _ hne hall]

/-- Witness for C7 at the concrete string of the claim, whose cleaned
value is exactly 45200. -/
theorem income_parse_correct_witness :
    cleanIncomeField ("$45,200".toList) = .ok 45200 := by
  have h := income_parse_correct ("$45,200".toList) (by decide) (by decide)
  have hv : decimalValue (("$45,200".toList).filter Char.isDigit) = 45200 := by decide
  rw [h, hv]
  norm_num

/-! ## Claim theorems: the Feature Deriver -/

/-- Claim C6: for a row of the table with TotalPop = 0, the derived
Female_Proportion is the undefined (non-finite) value, and the
derivation stage still succeeds on the whole table rather than
raising an error that terminates the pipeline. -/
theorem derive_zero_pop_undefined (df : List Row) (r : Row)
    (_hmem : r ∈ df) (h0 : r.totalPop = 0) :
    (∃ out, deriveStage df = .ok out)
    ∧ (deriveRow r).femaleProportion = none := by
  refine ⟨⟨df.map deriveRow, rfl⟩, ?_⟩
  unfold deriveRow safeDiv
  simp only [h0]
  cases r.female with
  | none => rfl
  | some n => simp

/-- A row with TotalPop = 0 used by the C6 witness. -/
def rowZeroPop : Row :=
  ⟨"ZP", 0, some 10, some 20, some 30, some 20, some 10, some 10, 100, some 400, some 600, none⟩

/-- Witness for C6 at a concrete one-row table with TotalPop = 0. -/
theorem derive_zero_pop_undefined_witness :
    rowZeroPop ∈ [rowZeroPop] ∧ rowZeroPop.totalPop = 0
    ∧ ((∃ out, deriveStage [rowZeroPop] = .ok out)
        ∧ (deriveRow rowZeroPop).femaleProportion = none) :=
  ⟨by simp, by decide,
   derive_zero_pop_undefined [rowZeroPop] rowZeroPop (by simp) (by decide)⟩

/-! ## Claim theorems: zero input and malformed input -/

/-- An error anywhere in the list makes the error-propagating map
fail. -/
lemma exMap_error_of_mem {α β : Type} (f : α → Except String β) (l : List α)
    (x : α) (hx : x ∈ l) (e : String) (he : f x = .error e) :
    ∃ e2, exMap f l = .error e2 := by
  induction l with
  | nil => cases hx
  | cons y t ih =>
    rcases List.mem_cons.mp hx with h | h
    · subst h
      exact ⟨e, by simp [exMap, he]⟩
    · cases hy : f y with
      | error e3 => exact ⟨e3, by simp [exMap, hy]⟩
      | ok v =>
        obtain ⟨e2, h2⟩ := ih h
        exact ⟨e2, by simp [exMap, hy, h2]⟩

/-- A raw row with no Income column makes the Field Normalizer raise
a KeyError. -/
lemma parseRow_missing_income (r : RawRow) (h : r.lookup "Income" = none) :
    parseRow r = .error "KeyError: Income" := by
  simp [parseRow, getCell, h, Bind.bind, Except.bind]

/-- A raw row whose Income cell leaves a non-numeric residue after
stripping makes the Field Normalizer raise a conversion error. -/
lemma parseRow_bad_income (r : RawRow) (s : String) (hs : r.lookup "Income" = some s)
    (hbad : parseFloat? (stripDollarComma s.toList) = none) :
    parseRow r = .error "could not convert string to float" := by
  have hbad2 : parseFloat? (stripDollarComma s.data) = none := hbad
  simp [parseRow, getCell, hs, cleanIncomeField, hbad2, Bind.bind, Except.bind]

/-- A failed field normalization of any concatenated row makes the
whole run fail. -/
lemma runPipeline_error_of_parse (files : List (List RawRow)) (hne : files ≠ [])
    (e : String) (he : exMap parseRow files.flatten = .error e) :
    runPipeline files = .error e := by
  have hc : concatFiles files = .ok files.flatten := by
    unfold concatFiles
    rw [if_neg (by simpa [List.isEmpty_iff] using hne)]
  simp [runPipeline, hc, he, Bind.bind, Except.bind]

/-- Claim C9: with zero matching input files the run terminates at
once with the concat error and produces no output table; likewise a
missing Income column or a non-numeric Income residue in any loaded
row terminates the run with a fatal error. -/
theorem zero_or_malformed_input_fatal :
    runPipeline [] = .error "No objects to concatenate"
    ∧ (∀ (files : List (List RawRow)) (r : RawRow), r ∈ files.flatten →
        r.lookup "Income" = none → ∃ e, runPipeline files = .error e)
    ∧ (∀ (files : List (List RawRow)) (r : RawRow) (s : String), r ∈ files.flatten →
        r.lookup "Income" = some s → parseFloat? (stripDollarComma s.toList) = none →
        ∃ e, runPipeline files = .error e) := by
  refine ⟨rfl, ?_, ?_⟩
  · intro files r hr hnone
    have hne : files ≠ [] := by
      rintro rfl
      simp at hr
    obtain ⟨e2, h2⟩ := exMap_error_of_mem parseRow files.flatten r hr
      "KeyError: Income" (parseRow_missing_income r hnone)
    exact ⟨e2, runPipeline_error_of_parse files hne e2 h2⟩
  · intro files r s hr hs hbad
    have hne : files ≠ [] := by
      rintro rfl
      simp at hr
    obtain ⟨e2, h2⟩ := exMap_error_of_mem parseRow files.flatten r hr
      "could not convert string to float" (parseRow_bad_income r s hs hbad)
    exact ⟨e2, runPipeline_error_of_parse files hne e2 h2⟩

/-- A raw file whose single row lacks the Income column. -/
def fileNoIncome : List RawRow := [[("State", "Texas")]]

/-- A raw file whose single row has a non-numeric Income cell. -/
def fileBadIncome : List RawRow := [[("Income", "abc")]]

/-- Witness for C9: the malformed-input conjuncts applied at two
concrete one-file inputs. -/
theorem zero_or_malformed_input_fatal_witness :
    (∃ e, runPipeline [fileNoIncome] = .error e)
    ∧ (∃ e, runPipeline [fileBadIncome] = .error e) :=
  ⟨zero_or_malformed_input_fatal.2.1 [fileNoIncome] [("State", "Texas")]
      (by simp [fileNoIncome]) (by decide),
   zero_or_malformed_input_fatal.2.2 [fileBadIncome] [("Income", "abc")] "abc"
      (by simp [fileBadIncome]) (by decide) (by decide)⟩

/-! ## Claim theorems: the top-5-by-income query -/

/-- A template row used by the C8 witness and counterexample: only the
state name and the income vary. -/
def qRow (s : String) (inc : ℚ) : Row :=
  ⟨s, 1000, some 10, some 20, some 30, some 20, some 10, some 10, inc, some 400, some 600, none⟩

/-- A one-row table. -/
def dfSingle : List Row := [qRow "Alpha" 10]

/-- A five-row table in which the state A appears twice. -/
def dfDupState : List Row :=
  [qRow "A" 5, qRow "A" 4, qRow "B" 3, qRow "C" 2, qRow "D" 1]

/-- A five-row table with distinct states and an income tie between
Beta and Gamma. -/
def dfFiveStates : List Row :=
  [qRow "Alpha" 10, qRow "Beta" 50, qRow "Gamma" 50, qRow "Delta" 30, qRow "Eps" 90]

/-- Counterexample to claim C8 as stated: on a cleaned one-row table
the query returns 1 row, not exactly 5; and on a cleaned five-row
table with a repeated state the query returns 5 rows whose states are
not distinct. -/
theorem top5_by_income_counterexample :
    (nlargest_income dfSingle).length = 1
    ∧ (nlargest_income dfSingle).length ≠ 5
    ∧ (nlargest_income dfDupState).length = 5
    ∧ ¬ ((nlargest_income dfDupState).map (fun r => r.state)).Nodup := by
  refine ⟨?_, ?_, ?_, ?_⟩ <;>
    norm_num [nlargest_income, top5pairs, List.insertionSort, List.orderedInsert,
      rankLe, dfSingle, dfDupState, qRow]

/-- Claim C8 (amended): on a cleaned table with at least 5 rows and
pairwise-distinct states, the query returns exactly 5 rows with
distinct states, ordered by descending Income with ties broken by the
original row position (stable selection), and every returned indexed
row ranks at least as high as every omitted one. -/
theorem top5_by_income (df : List Row) (h5 : 5 ≤ df.length)
    (hst : (df.map (fun r => r.state)).Nodup) :
    (nlargest_income df).length = 5
    ∧ ((nlargest_income df).map (fun r => r.state)).Nodup
    ∧ (top5pairs df).Pairwise
        (fun p q => q.2.income ≤ p.2.income ∧ (p.2.income = q.2.income → p.1 < q.1))
    ∧ ∀ p ∈ top5pairs df, ∀ q ∈ (List.insertionSort rankLe df.enum).drop 5, rankLe p q := by
  have hperm := List.perm_insertionSort rankLe df.enum
  have hsorted := List.sorted_insertionSort rankLe df.enum
  have hlenL : (List.insertionSort rankLe df.enum).length = df.length := by
    rw [hperm.length_eq, List.enum_length]
  refine ⟨?_, ?_, ?_, ?_⟩
  · unfold nlargest_income top5pairs
    rw [List.length_map, List.length_take, hlenL]
    omega
  · have he : df.map (fun r => r.state) = df.enum.map (fun p => p.2.state) := by
      conv_lhs => rw [← List.enum_map_snd df]
      rw [List.map_map]
      rfl
    have hLst : ((List.insertionSort rankLe df.enum).map (fun p => p.2.state)).Nodup := by
      rw [(hperm.map (fun p => p.2.state)).nodup_iff, ← he]
      exact hst
    have hmm : (nlargest_income df).map (fun r => r.state)
        = (top5pairs df).map (fun p => p.2.state) := by
      unfold nlargest_income
      rw [List.map_map]
      rfl
    rw [hmm]
    exact hLst.sublist ((List.take_sublist 5 _).map _)
  · have hfstnodup : (List.insertionSort rankLe df.enum).Pairwise
        (fun p q => p.1 ≠ q.1) := by
      have h1 : ((List.insertionSort rankLe df.enum).map Prod.fst).Nodup := by
        rw [(hperm.map Prod.fst).nodup_iff, List.enum_map_fst]
        exact List.nodup_range _
      exact List.pairwise_map.mp h1
    have hpair3 : (List.insertionSort rankLe df.enum).Pairwise
        (fun p q => q.2.income ≤ p.2.income ∧ (p.2.income = q.2.income → p.1 < q.1)) := by
      refine (List.Pairwise.and hsorted hfstnodup).imp ?_
      rintro a b ⟨hr, hne⟩
      rcases hr with h | ⟨heq, hle⟩
      · exact ⟨le_of_lt h, fun he => absurd (he ▸ h) (lt_irrefl _)⟩
      · exact ⟨le_of_eq heq.symm, fun _ => lt_of_le_of_ne hle hne⟩
    exact hpair3.sublist (List.take_sublist 5 _)
  · have hsplit := List.take_append_drop 5 (List.insertionSort rankLe df.enum)
    have hpw := hsorted
    rw [← hsplit] at hpw
    exact fun p hp q hq => (List.pairwise_append.mp hpw).2.2 p hp q hq

/-- Witness for amended C8 at the concrete five-state table with an
income tie. -/
theorem top5_by_income_witness :
    5 ≤ dfFiveStates.length
    ∧ ((dfFiveStates.map (fun r => r.state)).Nodup)
    ∧ ((nlargest_income dfFiveStates).length = 5
      ∧ ((nlargest_income dfFiveStates).map (fun r => r.state)).Nodup
      ∧ (top5pairs dfFiveStates).Pairwise
          (fun p q => q.2.income ≤ p.2.income ∧ (p.2.income = q.2.income → p.1 < q.1))
      ∧ ∀ p ∈ top5pairs dfFiveStates,
          ∀ q ∈ (List.insertionSort rankLe dfFiveStates.enum).drop 5, rankLe p q) :=
  ⟨by decide, by decide, top5_by_income dfFiveStates (by decide) (by decide)⟩

end CensusClean
